import Mathlib

/-!
# FplAnalyzer — verification of the prediction-engine specification

A shallow embedding of the FPL Draft Analyzer's prediction engine and of the
UI-side helpers that are present in the repository, together with proofs of
the specification's claims about them.

The repository ships the UI modules (H2H comparison, FPLDB client) as plain
JavaScript; the prediction engine itself (tier classifier, Bayesian blender,
bonus estimator, lineup selector, win-probability estimator, aggregator) is
documented in `README.md` and `spec.md` but its implementation file is not in
the source tree, so those components are modelled from the spec, staying with
the spec's own formulas and constants.
-/

deriving instance DecidableEq for Except

namespace FplAnalyzer

/-! ## Roles / positions -/

/-- Player roles (positions), a closed enumeration: 1=GK, 2=DEF, 3=MID, 4=FWD. -/
inductive Role where
  | GK
  | DEF
  | MID
  | FWD
deriving DecidableEq, Repr

/-- The four roles in their canonical order. -/
def roleList : List Role := [Role.GK, Role.DEF, Role.MID, Role.FWD]

theorem mem_roleList (r : Role) : r ∈ roleList := by
  cases r <;> simp [roleList]

/-! ## FPLDB position lookups (from `FPLDB.getPositionName` / `FPLDB.getPositionId`)

Embedded from the JavaScript in the repository's FPLDB client:
`positions[positionId] || 'UNK'` and `positions[positionName.toUpperCase()] || 3`. -/

/-- `FPLDB.getPositionName(positionId)`: object lookup with a silent
    fallback to the string `'UNK'` for any id outside 1..4. -/
def FPLDB.getPositionName (positionId : Nat) : String :=
  if positionId = 1 then "GK"
  else if positionId = 2 then "DEF"
  else if positionId = 3 then "MID"
  else if positionId = 4 then "FWD"
  else "UNK"

/-- JavaScript `.toUpperCase()` on an ASCII role name: uppercase each
    character. -/
def jsToUpperCase (s : String) : String :=
  String.mk (s.data.map Char.toUpper)

/-- `FPLDB.getPositionId(positionName)`: uppercases the name, then an object
    lookup with a silent fallback to `3` (MID) for any unknown name. -/
def FPLDB.getPositionId (positionName : String) : Nat :=
  let s := jsToUpperCase positionName
  if s = "GK" then 1
  else if s = "DEF" then 2
  else if s = "MID" then 3
  else if s = "FWD" then 4
  else 3

/-! ## H2H.compare control flow (from the H2H UI module)

The guard structure of `H2H.compare`: missing selections warn, identical
selections warn, and only two distinct non-empty squads trigger a prediction
request (`FPL.getH2H`). DOM values are strings; a missing/unselected entry is
the empty string (falsy in JS). -/

/-- The externally visible action taken by `H2H.compare`. -/
inductive H2HAction where
  | warnSelectBoth
  | warnSameSquad
  | requestPrediction (entry1 entry2 : String)
deriving DecidableEq

/-- `H2H.compare` guard logic: `if (!entry1 || !entry2) warn; if (entry1 ===
    entry2) warn; else await FPL.getH2H(entry1, entry2, gameweek)`. -/
def H2H.compare (entry1 entry2 : String) : H2HAction :=
  if entry1 = "" ∨ entry2 = "" then H2HAction.warnSelectBoth
  else if entry1 = entry2 then H2HAction.warnSameSquad
  else H2HAction.requestPrediction entry1 entry2

/-! ## Shrinkage blender

Modelled from the spec: `blend(tierRate, tierGames, overallRate, priorWeight)
= (tierRate × tierGames + overallRate × priorWeight) / (tierGames +
priorWeight)` (the README's `applyBayesianBlend`); the implementation file is
not in the tree. -/

/-- Bayesian-style shrinkage blend of a tier-conditioned rate with the
    overall rate. -/
def blend (tierRate tierGames overallRate priorWeight : ℚ) : ℚ :=
  (tierRate * tierGames + overallRate * priorWeight) / (tierGames + priorWeight)

/-! ## Tier classifier

Modelled from the spec: `classify(rank) -> tierId`, failing with
`ConfigurationError` on a configuration gap (no tier covers the rank) or on
overlapping tiers; the tier table is the README's `BATCH_CONFIG.batches`. -/

/-- Errors of the tier classifier. -/
inductive ConfigurationError where
  | overlap
  | gap
deriving DecidableEq, Repr

/-- One strength tier: an inclusive rank range with an id. -/
structure Tier where
  id : Nat
  min : Nat
  max : Nat
deriving DecidableEq, Repr

/-- Does a tier's inclusive rank range contain the rank? -/
def Tier.covers (t : Tier) (rank : Nat) : Bool :=
  decide (t.min ≤ rank) && decide (rank ≤ t.max)

/-- Do two tiers' rank ranges intersect? -/
def Tier.intersects (t u : Tier) : Bool :=
  decide (Nat.max t.min u.min ≤ Nat.min t.max u.max)

/-- Does the configured tier list contain two distinct entries with
    intersecting rank ranges? -/
def tiersOverlap : List Tier → Bool
  | [] => false
  | t :: ts => ts.any (fun u => t.intersects u) || tiersOverlap ts

/-- The tier configuration of `BATCH_CONFIG.batches`:
    1-4, 5-8, 9-12, 13-16, 17-20. -/
def BATCH_CONFIG.batches : List Tier :=
  [⟨1, 1, 4⟩, ⟨2, 5, 8⟩, ⟨3, 9, 12⟩, ⟨4, 13, 16⟩, ⟨5, 17, 20⟩]

/-- `classify(rank) -> tierId`: fails on an overlapping configuration, else
    returns the id of the tier covering the rank, failing on a gap. -/
def classify (tiers : List Tier) (rank : Nat) : Except ConfigurationError Nat :=
  if tiersOverlap tiers then Except.error ConfigurationError.overlap
  else
    match tiers.find? (fun t => t.covers rank) with
    | some t => Except.ok t.id
    | none => Except.error ConfigurationError.gap

/-! ## Threshold bonus estimator

Modelled from the spec (§4.6) and the README's DC-bonus snippet: above the
threshold the probability is `0.5 + (metric − threshold) × slope` capped at
1.0; within a band below the threshold it is `baseRate × (metric /
threshold)`; below the band it is 0. Threshold, slope, band and historical
base rate are role-dependent configuration. -/

/-- `bonusProbability(expectedMetric, threshold)` with its configuration
    constants passed explicitly. -/
def bonusProbability (expectedMetric threshold slope band baseRate : ℚ) : ℚ :=
  if threshold ≤ expectedMetric then
    min 1 (1/2 + (expectedMetric - threshold) * slope)
  else if threshold - band ≤ expectedMetric then
    baseRate * (expectedMetric / threshold)
  else 0

/-! ## Statistics aggregator (contemporaneous tiers)

Modelled from the spec (§4.2): per-tier buckets accumulate a record only when
the opponent's tier — evaluated from the standings *as of that fixture's
round*, never from current standings — matches the bucket; the aggregator
implementation file is not in the tree. -/

/-- One player's participation in one past fixture (the fields C3 needs). -/
structure MatchRecord where
  opponent : Nat
  round : Nat
  minutes : Nat
  goals : Nat
deriving DecidableEq, Repr

/-- A per-tier accumulation bucket. -/
structure TierBucket where
  games : Nat
  goals : Nat
deriving DecidableEq, Repr

/-- The opponent's tier for a record, resolved from the standings table at
    the record's round (`standings round teamId = rank`). -/
def tierAt (standings : Nat → Nat → Nat) (tiers : List Tier) (m : MatchRecord) :
    Except ConfigurationError Nat :=
  classify tiers (standings m.round m.opponent)

/-- Is the record's contemporaneous opponent tier exactly `tid`? -/
def inTier (standings : Nat → Nat → Nat) (tiers : List Tier) (tid : Nat)
    (m : MatchRecord) : Bool :=
  match tierAt standings tiers m with
  | Except.ok t => decide (t = tid)
  | Except.error _ => false

/-- Aggregate a player's match records into the bucket of tier `tid`,
    counting a record iff its opponent's contemporaneous tier is `tid`. -/
def aggregate (standings : Nat → Nat → Nat) (tiers : List Tier)
    (tid : Nat) : List MatchRecord → TierBucket
  | [] => ⟨0, 0⟩
  | m :: ms =>
    let b := aggregate standings tiers tid ms
    if inTier standings tiers tid m then ⟨b.games + 1, b.goals + m.goals⟩ else b

/-! ## Lineup selector

Modelled from the spec (§4.7) and the README's formation constraints
(1 GK, 3-5 DEF, 2-5 MID, 1-3 FWD): take the top-expected-points players per
role up to each role minimum, then greedily fill the remaining slots across
all eligible roles by descending expected points until 11 are selected,
never exceeding a role maximum; fail with `InsufficientSquadError` when a
role minimum cannot be met. -/

/-- A lineup candidate: player id, role, expected points. -/
structure Candidate where
  pid : Nat
  role : Role
  xPts : ℚ
deriving DecidableEq, Repr

/-- Configured role minima: 1 GK, 3 DEF, 2 MID, 1 FWD. -/
def roleMin : Role → Nat
  | Role.GK => 1
  | Role.DEF => 3
  | Role.MID => 2
  | Role.FWD => 1

/-- Configured role maxima: 1 GK, 5 DEF, 5 MID, 3 FWD. -/
def roleMax : Role → Nat
  | Role.GK => 1
  | Role.DEF => 5
  | Role.MID => 5
  | Role.FWD => 3

/-- Descending-expected-points order (ties keep input order under the
    stable insertion sort). -/
def candLE (a b : Candidate) : Prop := b.xPts ≤ a.xPts

instance : DecidableRel candLE := fun a b => inferInstanceAs (Decidable (b.xPts ≤ a.xPts))

instance : IsTotal Candidate candLE :=
  ⟨fun a b => (le_total b.xPts a.xPts).elim Or.inl Or.inr⟩

instance : IsTrans Candidate candLE :=
  ⟨fun _ _ _ hab hbc => le_trans hbc hab⟩

/-- The candidates of one role, sorted by descending expected points
    (stable). -/
def sortedRole (pool : List Candidate) (r : Role) : List Candidate :=
  List.insertionSort candLE (pool.filter (fun c => c.role == r))

/-- The lineup selector's error. -/
inductive SquadError where
  | insufficientSquad
deriving DecidableEq, Repr

/-- Increment one role's slot count. -/
def bump (cnt : Role → Nat) (r : Role) : Role → Nat :=
  fun s => if s = r then cnt s + 1 else cnt s

/-- Total selected slots over the four roles. -/
def sumCnt (cnt : Role → Nat) : Nat :=
  cnt Role.GK + cnt Role.DEF + cnt Role.MID + cnt Role.FWD

/-- Among the given roles, find the best next candidate: each role `r` with
    spare capacity (`cnt r < roleMax r`) offers its next-best unselected
    candidate `(sortedRole pool r)[cnt r]`; the highest expected points
    wins. -/
def pickFrom (pool : List Candidate) (cnt : Role → Nat) :
    List Role → Option (Role × Candidate)
  | [] => none
  | r :: rs =>
    let rest := pickFrom pool cnt rs
    if cnt r < roleMax r then
      match (sortedRole pool r)[cnt r]? with
      | none => rest
      | some nc =>
        match rest with
        | none => some (r, nc)
        | some (s, mc) => if candLE nc mc then some (r, nc) else some (s, mc)
    else rest

/-- Greedy fill: take the best eligible candidate `fuel` more times. -/
def phase2 (pool : List Candidate) : Nat → (Role → Nat) → Except SquadError (Role → Nat)
  | 0, cnt => Except.ok cnt
  | fuel + 1, cnt =>
    match pickFrom pool cnt roleList with
    | none => Except.error SquadError.insufficientSquad
    | some (r, _) => phase2 pool (fuel) (bump cnt r)

/-- Per-role slot counts of the optimal eleven: guarantee each role's
    minimum (erroring when a role cannot meet it), then greedily fill the
    remaining `11 − (1+3+2+1) = 4` slots. -/
def selectCounts (pool : List Candidate) : Except SquadError (Role → Nat) :=
  if ∀ r ∈ roleList, roleMin r ≤ (sortedRole pool r).length then
    phase2 pool 4 roleMin
  else Except.error SquadError.insufficientSquad

/-- `selectOptimalEleven(candidates)`: the chosen players are, per role, the
    top `k r` of that role by expected points, where `k` are the greedy slot
    counts. -/
def selectOptimalEleven (pool : List Candidate) : Except SquadError (List Candidate) :=
  (selectCounts pool).map (fun k =>
    (roleList.map (fun r => (sortedRole pool r).take (k r))).flatten)

/-- Number of players of a role in a list. -/
def rcount (l : List Candidate) (r : Role) : Nat :=
  l.countP (fun c => c.role == r)

/-- Summed expected points of a list of candidates. -/
def xsum (l : List Candidate) : ℚ :=
  (l.map Candidate.xPts).sum

/-- The expected-points values of one role's candidates, descending. -/
def valsSorted (pool : List Candidate) (r : Role) : List ℚ :=
  (sortedRole pool r).map Candidate.xPts

/-- The `i`-th best expected-points value of a role (0 beyond the pool). -/
def nth (pool : List Candidate) (r : Role) (i : Nat) : ℚ :=
  (valsSorted pool r).getD i 0

/-- The sum of the `k` best expected-points values of a role. -/
def bestSum (pool : List Candidate) (r : Role) (k : Nat) : ℚ :=
  ((valsSorted pool r).take k).sum

/-- Total expected points of a count vector: each role contributes its
    top-`n r` values. -/
def wsum (pool : List Candidate) (n : Role → Nat) : ℚ :=
  bestSum pool Role.GK (n Role.GK) + bestSum pool Role.DEF (n Role.DEF) +
    bestSum pool Role.MID (n Role.MID) + bestSum pool Role.FWD (n Role.FWD)

/-- Truncated distance from `n` up to `k`, summed over roles. -/
def ddist (k n : Role → Nat) : Nat :=
  (k Role.GK - n Role.GK) + (k Role.DEF - n Role.DEF) +
    (k Role.MID - n Role.MID) + (k Role.FWD - n Role.FWD)


/-! ## Outcome probability estimator

Modelled from the spec (§4.8) and the README: `P(team1 wins) = Φ((μ1 − μ2) /
σ_diff)` with `σ_diff = √(σ1² + σ2²)`, where Φ is the standard normal
cumulative distribution (the implementation's `normalCDF` approximation is
not in the tree, so Φ is modelled exactly). -/

/-- Φ, the standard normal cumulative distribution function. -/
noncomputable def normalCDF (x : ℝ) : ℝ :=
  ∫ t in Set.Iic x, ProbabilityTheory.gaussianPDFReal 0 1 t

/-- `calculateH2HWinProbability`'s core: win probability for team 1 from
    the two predicted totals and the two roster uncertainties. -/
noncomputable def winProbability (total1 total2 uncertainty1 uncertainty2 : ℝ) : ℝ :=
  normalCDF ((total1 - total2) / Real.sqrt (uncertainty1 ^ 2 + uncertainty2 ^ 2))

/-- The spec's scenario roster: 15 players, 2 GK, 5 DEF, 5 MID, 3 FWD. -/
def scenarioPool : List Candidate :=
  [⟨1, Role.GK, 5⟩, ⟨2, Role.GK, 3⟩,
   ⟨3, Role.DEF, 6⟩, ⟨4, Role.DEF, 5⟩, ⟨5, Role.DEF, 4⟩, ⟨6, Role.DEF, 3⟩, ⟨7, Role.DEF, 2⟩,
   ⟨8, Role.MID, 9⟩, ⟨9, Role.MID, 8⟩, ⟨10, Role.MID, 7⟩, ⟨11, Role.MID, 2⟩, ⟨12, Role.MID, 1⟩,
   ⟨13, Role.FWD, 6⟩, ⟨14, Role.FWD, 4⟩, ⟨15, Role.FWD, 1⟩]

/-- An 11-player formation-valid sub-selection of the scenario roster. -/
def scenarioT : List Candidate :=
  [⟨1, Role.GK, 5⟩,
   ⟨3, Role.DEF, 6⟩, ⟨4, Role.DEF, 5⟩, ⟨5, Role.DEF, 4⟩, ⟨6, Role.DEF, 3⟩, ⟨7, Role.DEF, 2⟩,
   ⟨8, Role.MID, 9⟩, ⟨9, Role.MID, 8⟩, ⟨10, Role.MID, 7⟩,
   ⟨13, Role.FWD, 6⟩, ⟨14, Role.FWD, 4⟩]

/-! ## Helper lemmas -/

/-- On ranks 1..20, the configured batches classify to tier `(rank+3)/4`. -/
theorem classify_batches_eq (rank : Nat) (h1 : 1 ≤ rank) (h2 : rank ≤ 20) :
    classify BATCH_CONFIG.batches rank = Except.ok ((rank + 3) / 4) := by
  interval_cases rank <;> decide

/-- `inTier` only reads the standings entry at the record's round/opponent. -/
theorem inTier_congr (tiers : List Tier) (tid : Nat) (m : MatchRecord)
    (s1 s2 : Nat → Nat → Nat) (h : s1 m.round m.opponent = s2 m.round m.opponent) :
    inTier s1 tiers tid m = inTier s2 tiers tid m := by
  unfold inTier tierAt
  rw [h]

/-- Aggregation only reads standings entries at the records' own rounds. -/
theorem aggregate_congr (tiers : List Tier) (tid : Nat) (s1 s2 : Nat → Nat → Nat) :
    ∀ records : List MatchRecord,
      (∀ m ∈ records, s1 m.round m.opponent = s2 m.round m.opponent) →
      aggregate s1 tiers tid records = aggregate s2 tiers tid records := by
  intro records h
  induction records with
  | nil => rfl
  | cons m ms ih =>
    have hm : s1 m.round m.opponent = s2 m.round m.opponent := h m (by simp)
    have hms := ih (fun x hx => h x (by simp [hx]))
    simp only [aggregate, hms, inTier_congr tiers tid m s1 s2 hm]

/-- The games count of a bucket is the number of records whose
    contemporaneous opponent tier matches. -/
theorem aggregate_games_eq (standings : Nat → Nat → Nat) (tiers : List Tier)
    (tid : Nat) (records : List MatchRecord) :
    (aggregate standings tiers tid records).games
      = (records.filter (inTier standings tiers tid)).length := by
  induction records with
  | nil => rfl
  | cons m ms ih =>
    by_cases hm : inTier standings tiers tid m
    · simp [aggregate, List.filter_cons, hm, ih]
    · simp [aggregate, List.filter_cons, hm, ih]

/-! ### Lineup selector lemmas -/

theorem mem_sortedRole {pool : List Candidate} {r : Role} {x : Candidate}
    (hx : x ∈ sortedRole pool r) : x.role = r := by
  have hx' : x ∈ pool.filter (fun c => c.role == r) :=
    (List.perm_insertionSort candLE _).subset hx
  have := (List.mem_filter.1 hx').2
  exact beq_iff_eq.1 this

theorem sortedRole_length (pool : List Candidate) (r : Role) :
    (sortedRole pool r).length = (pool.filter (fun c => c.role == r)).length :=
  (List.perm_insertionSort candLE _).length_eq

theorem sortedRole_sorted (pool : List Candidate) (r : Role) :
    List.Sorted candLE (sortedRole pool r) :=
  List.sorted_insertionSort candLE _

theorem sumCnt_bump (cnt : Role → Nat) (r : Role) :
    sumCnt (bump cnt r) = sumCnt cnt + 1 := by
  cases r <;> simp [sumCnt, bump] <;> omega

theorem bump_le (cnt : Role → Nat) (r s : Role) : cnt s ≤ bump cnt r s := by
  unfold bump
  by_cases hs : s = r
  · rw [if_pos hs]; omega
  · rw [if_neg hs]

theorem pickFrom_none (pool : List Candidate) (cnt : Role → Nat) :
    ∀ rs : List Role, pickFrom pool cnt rs = none →
      ∀ r ∈ rs, cnt r < roleMax r → (sortedRole pool r)[cnt r]? = none := by
  intro rs
  induction rs with
  | nil => intro _ r hr; simp at hr
  | cons r rs ih =>
    intro h r' hr' hcap'
    simp only [pickFrom] at h
    by_cases hcap : cnt r < roleMax r
    · rw [if_pos hcap] at h
      cases hnext : (sortedRole pool r)[cnt r]? with
      | none =>
        simp only [hnext] at h
        rcases List.mem_cons.1 hr' with rfl | hr'
        · exact hnext
        · exact ih h r' hr' hcap'
      | some nc0 =>
        simp only [hnext] at h
        cases hrest : pickFrom pool cnt rs with
        | none =>
          simp only [hrest] at h
          exact Option.noConfusion h
        | some pr =>
          obtain ⟨s', mc'⟩ := pr
          simp only [hrest] at h
          split_ifs at h
    · rw [if_neg hcap] at h
      rcases List.mem_cons.1 hr' with rfl | hr'
      · exact absurd hcap' hcap
      · exact ih h r' hr' hcap'

theorem pickFrom_some (pool : List Candidate) (cnt : Role → Nat) :
    ∀ (rs : List Role) (s : Role) (mc : Candidate),
      pickFrom pool cnt rs = some (s, mc) →
      s ∈ rs ∧ cnt s < roleMax s ∧ (sortedRole pool s)[cnt s]? = some mc ∧
      ∀ r ∈ rs, cnt r < roleMax r →
        ∀ nc, (sortedRole pool r)[cnt r]? = some nc → nc.xPts ≤ mc.xPts := by
  intro rs
  induction rs with
  | nil => intro s mc h; simp [pickFrom] at h
  | cons r rs ih =>
    intro s mc h
    simp only [pickFrom] at h
    by_cases hcap : cnt r < roleMax r
    · rw [if_pos hcap] at h
      cases hnext : (sortedRole pool r)[cnt r]? with
      | none =>
        simp only [hnext] at h
        obtain ⟨hs, hc, hg, hmax⟩ := ih s mc h
        refine ⟨List.mem_cons_of_mem _ hs, hc, hg, ?_⟩
        intro r' hr' hcap' nc hnc
        rcases List.mem_cons.1 hr' with rfl | hr'
        · rw [hnext] at hnc; exact absurd hnc (by simp)
        · exact hmax r' hr' hcap' nc hnc
      | some nc0 =>
        simp only [hnext] at h
        cases hrest : pickFrom pool cnt rs with
        | none =>
          simp only [hrest, Option.some.injEq, Prod.mk.injEq] at h
          obtain ⟨rfl, rfl⟩ := h
          refine ⟨List.mem_cons_self _ _, hcap, hnext, ?_⟩
          intro r' hr' hcap' nc hnc
          rcases List.mem_cons.1 hr' with rfl | hr'
          · rw [hnext] at hnc
            injection hnc with h''
            rw [h'']
          · rw [pickFrom_none pool cnt rs hrest r' hr' hcap'] at hnc
            exact absurd hnc (by simp)
        | some pr =>
          obtain ⟨s', mc'⟩ := pr
          simp only [hrest] at h
          obtain ⟨hs', hc', hg', hmax'⟩ := ih s' mc' hrest
          by_cases hle : candLE nc0 mc'
          · rw [if_pos hle] at h
            simp only [Option.some.injEq, Prod.mk.injEq] at h
            obtain ⟨rfl, rfl⟩ := h
            refine ⟨List.mem_cons_self _ _, hcap, hnext, ?_⟩
            intro r' hr' hcap' nc hnc
            rcases List.mem_cons.1 hr' with rfl | hr'
            · rw [hnext] at hnc
              injection hnc with h''
              rw [h'']
            · exact le_trans (hmax' r' hr' hcap' nc hnc) hle
          · rw [if_neg hle] at h
            simp only [Option.some.injEq, Prod.mk.injEq] at h
            obtain ⟨rfl, rfl⟩ := h
            refine ⟨List.mem_cons_of_mem _ hs', hc', hg', ?_⟩
            intro r' hr' hcap' nc hnc
            rcases List.mem_cons.1 hr' with rfl | hr'
            · rw [hnext] at hnc
              injection hnc with h''
              rw [← h'']
              exact le_of_lt (lt_of_not_le hle)
            · exact hmax' r' hr' hcap' nc hnc
    · rw [if_neg hcap] at h
      obtain ⟨hs, hc, hg, hmax⟩ := ih s mc h
      refine ⟨List.mem_cons_of_mem _ hs, hc, hg, ?_⟩
      intro r' hr' hcap' nc hnc
      rcases List.mem_cons.1 hr' with rfl | hr'
      · exact absurd hcap' hcap
      · exact hmax r' hr' hcap' nc hnc

theorem phase2_ok (pool : List Candidate) :
    ∀ (fuel : Nat) (cnt k : Role → Nat),
      phase2 pool fuel cnt = Except.ok k →
      (∀ r, cnt r ≤ roleMax r) → (∀ r, cnt r ≤ (sortedRole pool r).length) →
      (∀ r, cnt r ≤ k r) ∧ (∀ r, k r ≤ roleMax r) ∧
      (∀ r, k r ≤ (sortedRole pool r).length) ∧ sumCnt k = sumCnt cnt + fuel := by
  intro fuel
  induction fuel with
  | zero =>
    intro cnt k h hmax hlen
    simp only [phase2] at h
    injection h with h'
    subst h'
    exact ⟨fun r => le_refl _, hmax, hlen, by omega⟩
  | succ fuel ih =>
    intro cnt k h hmax hlen
    simp only [phase2] at h
    cases hpick : pickFrom pool cnt roleList with
    | none =>
      simp only [hpick] at h
      exact Except.noConfusion h
    | some pr =>
      obtain ⟨r, nc⟩ := pr
      simp only [hpick] at h
      obtain ⟨_, hcap, hnext, _⟩ := pickFrom_some pool cnt roleList r nc hpick
      have hlt : cnt r < (sortedRole pool r).length := by
        by_contra hn
        push_neg at hn
        rw [List.getElem?_eq_none hn] at hnext
        exact absurd hnext (by simp)
      have hmax' : ∀ s, bump cnt r s ≤ roleMax s := by
        intro s
        unfold bump
        by_cases hs : s = r
        · rw [if_pos hs]; subst hs; omega
        · rw [if_neg hs]; exact hmax s
      have hlen' : ∀ s, bump cnt r s ≤ (sortedRole pool s).length := by
        intro s
        unfold bump
        by_cases hs : s = r
        · rw [if_pos hs]; subst hs; omega
        · rw [if_neg hs]; exact hlen s
      obtain ⟨h1, h2, h3, h4⟩ := ih (bump cnt r) k h hmax' hlen'
      refine ⟨fun s => le_trans (bump_le cnt r s) (h1 s), h2, h3, ?_⟩
      rw [h4, sumCnt_bump]
      omega

theorem bucket_countP (pool : List Candidate) (k : Role → Nat)
    (hk : ∀ r, k r ≤ (sortedRole pool r).length) (r s : Role) :
    ((sortedRole pool s).take (k s)).countP (fun c => c.role == r)
      = if s = r then k s else 0 := by
  by_cases hs : s = r
  · subst hs
    rw [if_pos rfl]
    have hall : ∀ c ∈ (sortedRole pool s).take (k s), (fun c : Candidate => c.role == s) c := by
      intro c hc
      have : c ∈ sortedRole pool s := List.mem_of_mem_take hc
      simp [mem_sortedRole this]
    rw [List.countP_eq_length.2 hall, List.length_take]
    have := hk s
    omega
  · rw [if_neg hs]
    rw [List.countP_eq_zero.2]
    intro c hc
    have : c ∈ sortedRole pool s := List.mem_of_mem_take hc
    simp [mem_sortedRole this, hs]

theorem rcount_selection (pool : List Candidate) (k : Role → Nat)
    (hk : ∀ r, k r ≤ (sortedRole pool r).length) (r : Role) :
    rcount ((roleList.map (fun s => (sortedRole pool s).take (k s))).flatten) r = k r := by
  unfold rcount
  rw [List.countP_flatten, List.map_map]
  have hcong :
      (roleList.map ((fun l : List Candidate => l.countP (fun c => c.role == r)) ∘
        (fun s => (sortedRole pool s).take (k s))))
        = roleList.map (fun s => if s = r then k s else 0) := by
    apply List.map_congr_left
    intro s _
    exact bucket_countP pool k hk r s
  rw [hcong]
  cases r <;> simp [roleList]

theorem length_selection (pool : List Candidate) (k : Role → Nat)
    (hk : ∀ r, k r ≤ (sortedRole pool r).length) :
    ((roleList.map (fun s => (sortedRole pool s).take (k s))).flatten).length = sumCnt k := by
  rw [List.length_flatten, List.map_map]
  have hcong :
      (roleList.map (List.length ∘ (fun s => (sortedRole pool s).take (k s))))
        = roleList.map k := by
    apply List.map_congr_left
    intro s _
    have := hk s
    simp [List.length_take]
    omega
  rw [hcong]
  simp only [roleList, List.map_cons, List.map_nil, List.sum_cons, List.sum_nil, sumCnt]
  omega

theorem roleMin_le_roleMax (r : Role) : roleMin r ≤ roleMax r := by
  cases r <;> decide

/-! ### Optimality lemmas -/

theorem valsSorted_pairwise (pool : List Candidate) (r : Role) :
    (valsSorted pool r).Pairwise (fun x y => y ≤ x) :=
  (sortedRole_sorted pool r).map Candidate.xPts (fun _ _ h => h)

theorem valsSorted_length (pool : List Candidate) (r : Role) :
    (valsSorted pool r).length = (sortedRole pool r).length :=
  List.length_map _ _

theorem nth_antitone (pool : List Candidate) (r : Role) {i j : Nat}
    (hij : i ≤ j) (hj : j < (sortedRole pool r).length) :
    nth pool r j ≤ nth pool r i := by
  have hj' : j < (valsSorted pool r).length := by rw [valsSorted_length]; exact hj
  have hi' : i < (valsSorted pool r).length := lt_of_le_of_lt hij hj'
  rcases Nat.lt_or_ge i j with hlt | hge
  · have hp := List.pairwise_iff_getElem.1 (valsSorted_pairwise pool r) i j hi' hj' hlt
    unfold nth
    rw [List.getD_eq_getElem _ 0 hi', List.getD_eq_getElem _ 0 hj']
    exact hp
  · have : i = j := le_antisymm hij hge
    rw [this]

theorem nth_eq_of_getElem? (pool : List Candidate) (r : Role) (i : Nat)
    {c : Candidate} (h : (sortedRole pool r)[i]? = some c) :
    nth pool r i = c.xPts := by
  unfold nth valsSorted
  rw [List.getD_eq_getElem?_getD, List.getElem?_map, h]
  rfl

theorem bestSum_succ (pool : List Candidate) (r : Role) (i : Nat)
    (h : i < (sortedRole pool r).length) :
    bestSum pool r (i + 1) = bestSum pool r i + nth pool r i := by
  have h' : i < (valsSorted pool r).length := by rw [valsSorted_length]; exact h
  unfold bestSum nth
  rw [List.sum_take_succ _ i h', List.getD_eq_getElem _ 0 h']

theorem take_succ_sum_le (a : ℚ) :
    ∀ (w : List ℚ), w.Pairwise (fun x y => y ≤ x) → (∀ x ∈ w, x ≤ a) →
      ∀ m, m + 1 ≤ w.length → (w.take (m + 1)).sum ≤ a + (w.take m).sum := by
  intro w
  induction w with
  | nil =>
    intro _ _ m hm
    simp at hm
  | cons b w' ih =>
    intro hp hb m hm
    cases m with
    | zero =>
      simp only [List.take_succ_cons, List.take_zero, List.sum_cons, List.sum_nil, add_zero]
      exact hb b (by simp)
    | succ j =>
      simp only [List.take_succ_cons, List.sum_cons]
      have h' := ih hp.of_cons (fun x hx => hb x (by simp [hx])) j (by simpa using hm)
      linarith

theorem sublist_sum_le :
    ∀ {s w : List ℚ}, s.Sublist w → w.Pairwise (fun x y => y ≤ x) →
      s.sum ≤ (w.take s.length).sum := by
  intro s w hsub
  induction hsub with
  | slnil =>
    intro _
    simp
  | @cons s w a hsub ih =>
    intro hp
    have hp' := hp.of_cons
    have hmem : ∀ x ∈ w, x ≤ a := (List.pairwise_cons.1 hp).1
    have hlen : s.length ≤ w.length := hsub.length_le
    refine le_trans (ih hp') ?_
    cases hsl : s.length with
    | zero => simp
    | succ m =>
      rw [List.take_succ_cons, List.sum_cons]
      exact take_succ_sum_le a w hp' hmem m (by omega)
  | @cons₂ s w a hsub ih =>
    intro hp
    simp only [List.length_cons, List.take_succ_cons, List.sum_cons]
    exact add_le_add_left (ih hp.of_cons) a

theorem xsum_filter_le (pool T : List Candidate) (hT : T.Sublist pool) (r : Role) :
    xsum (T.filter (fun c => c.role == r)) ≤ bestSum pool r (rcount T r) := by
  have h1 : (T.filter (fun c => c.role == r)).Sublist (pool.filter (fun c => c.role == r)) :=
    hT.filter _
  have h2 : (pool.filter (fun c => c.role == r)).Perm (sortedRole pool r) :=
    (List.perm_insertionSort candLE _).symm
  have h3 : ((T.filter (fun c => c.role == r)).map Candidate.xPts).Subperm (valsSorted pool r) :=
    ((h1.map Candidate.xPts).subperm).trans (h2.map Candidate.xPts).subperm
  obtain ⟨t, htperm, htsub⟩ := h3
  have hsum := sublist_sum_le htsub (valsSorted_pairwise pool r)
  have hlen : t.length = rcount T r := by
    rw [htperm.length_eq, List.length_map]
    unfold rcount
    rw [List.countP_eq_length_filter]
  have hts : t.sum = xsum (T.filter (fun c => c.role == r)) := by
    unfold xsum
    exact htperm.sum_eq
  rw [hlen, hts] at hsum
  exact hsum

theorem rcount_partition (T : List Candidate) :
    rcount T Role.GK + rcount T Role.DEF + rcount T Role.MID + rcount T Role.FWD
      = T.length := by
  induction T with
  | nil => rfl
  | cons c T ih =>
    unfold rcount at ih ⊢
    cases hc : c.role <;>
      simp only [List.countP_cons, hc, List.length_cons] <;>
      simp <;> omega

theorem xsum_cons (c : Candidate) (l : List Candidate) :
    xsum (c :: l) = c.xPts + xsum l := by
  unfold xsum
  rw [List.map_cons, List.sum_cons]

theorem xsum_partition (T : List Candidate) :
    xsum T = xsum (T.filter (fun c => c.role == Role.GK)) +
      xsum (T.filter (fun c => c.role == Role.DEF)) +
      xsum (T.filter (fun c => c.role == Role.MID)) +
      xsum (T.filter (fun c => c.role == Role.FWD)) := by
  induction T with
  | nil => simp [xsum]
  | cons c T ih =>
    rw [xsum_cons]
    cases hc : c.role <;>
      simp [List.filter_cons, hc, xsum_cons, ih] <;> ring

theorem xsum_selection (pool : List Candidate) (k : Role → Nat) :
    xsum ((roleList.map (fun s => (sortedRole pool s).take (k s))).flatten)
      = wsum pool k := by
  unfold xsum wsum bestSum valsSorted
  simp only [roleList, List.map_cons, List.map_nil, List.flatten_cons, List.flatten_nil,
    List.append_nil, List.map_append, List.sum_append, List.map_take]
  ring

theorem wsum_update (pool : List Candidate) (n : Role → Nat) (t : Role) (v : Nat) :
    wsum pool (fun s => if s = t then v else n s)
      = wsum pool n - bestSum pool t (n t) + bestSum pool t v := by
  cases t <;> simp [wsum] <;> ring

theorem sumCnt_update (n : Role → Nat) (t : Role) (v : Nat) :
    sumCnt (fun s => if s = t then v else n s) + n t = sumCnt n + v := by
  cases t <;> simp [sumCnt] <;> omega

theorem ddist_update (k n : Role → Nat) (t : Role) (v : Nat) :
    ddist k (fun s => if s = t then v else n s) + (k t - n t)
      = ddist k n + (k t - v) := by
  cases t <;> simp [ddist] <;> omega

/-- The greedy certificate: any value the greedy phase took for role `s`
    (at slot index `j ≥` the starting count) is at least the next value of
    any role `r` that still had spare capacity and spare candidates at the
    end. -/
theorem phase2_cert (pool : List Candidate) :
    ∀ (fuel : Nat) (cnt k : Role → Nat),
      phase2 pool fuel cnt = Except.ok k →
      (∀ r, cnt r ≤ roleMax r) → (∀ r, cnt r ≤ (sortedRole pool r).length) →
      ∀ s j, cnt s ≤ j → j < k s →
        ∀ r, k r < roleMax r → k r < (sortedRole pool r).length →
          nth pool r (k r) ≤ nth pool s j := by
  intro fuel
  induction fuel with
  | zero =>
    intro cnt k h _ _ s j hcs hjk r _ _
    simp only [phase2] at h
    injection h with h'
    subst h'
    exact absurd hjk (by omega)
  | succ fuel ih =>
    intro cnt k h hmax hlen s j hcs hjk r hkr hkrlen
    simp only [phase2] at h
    cases hpick : pickFrom pool cnt roleList with
    | none =>
      simp only [hpick] at h
      exact Except.noConfusion h
    | some pr =>
      obtain ⟨r0, nc⟩ := pr
      simp only [hpick] at h
      obtain ⟨_, hcap0, hnext0, hmax0⟩ := pickFrom_some pool cnt roleList r0 nc hpick
      have hlen0 : cnt r0 < (sortedRole pool r0).length := by
        by_contra hn
        push_neg at hn
        rw [List.getElem?_eq_none hn] at hnext0
        exact Option.noConfusion hnext0
      have hmax' : ∀ t, bump cnt r0 t ≤ roleMax t := by
        intro t
        unfold bump
        by_cases ht : t = r0
        · rw [if_pos ht]; subst ht; omega
        · rw [if_neg ht]; exact hmax t
      have hlen' : ∀ t, bump cnt r0 t ≤ (sortedRole pool t).length := by
        intro t
        unfold bump
        by_cases ht : t = r0
        · rw [if_pos ht]; subst ht; omega
        · rw [if_neg ht]; exact hlen t
      obtain ⟨hmono, _, _, _⟩ := phase2_ok pool fuel (bump cnt r0) k h hmax' hlen'
      by_cases hcase : bump cnt r0 s ≤ j
      · exact ih (bump cnt r0) k h hmax' hlen' s j hcase hjk r hkr hkrlen
      · have hs0 : s = r0 ∧ j = cnt s := by
          unfold bump at hcase
          by_cases hsr : s = r0
          · rw [if_pos hsr] at hcase
            exact ⟨hsr, by omega⟩
          · rw [if_neg hsr] at hcase
            exact absurd hcs hcase
        obtain ⟨hseq, hjeq⟩ := hs0
        subst hjeq
        have hncval : nth pool s (cnt s) = nc.xPts := by
          rw [hseq]
          exact nth_eq_of_getElem? pool r0 (cnt r0) (hseq ▸ hnext0)
        have hcr : cnt r ≤ k r := le_trans (bump_le cnt r0 r) (hmono r)
        have h_er1 : cnt r < roleMax r := lt_of_le_of_lt hcr hkr
        have h_er2 : cnt r < (sortedRole pool r).length := lt_of_le_of_lt hcr hkrlen
        have hle := hmax0 r (mem_roleList r) h_er1 _ (List.getElem?_eq_getElem h_er2)
        have hnthr : nth pool r (cnt r)
            = ((sortedRole pool r).get ⟨cnt r, h_er2⟩).xPts :=
          nth_eq_of_getElem? pool r (cnt r)
            (by rw [List.getElem?_eq_getElem h_er2, List.get_eq_getElem])
        calc nth pool r (k r) ≤ nth pool r (cnt r) := nth_antitone pool r hcr hkrlen
          _ ≤ nc.xPts := by rw [hnthr]; rw [List.get_eq_getElem]; exact hle
          _ = nth pool s (cnt s) := hncval.symm

/-- The greedy count vector beats every feasible count vector: separable
    concave exchange over the role simplex, driven by `phase2_cert`. -/
theorem wsum_le_of_cert (pool : List Candidate) (k : Role → Nat)
    (hkmax : ∀ r, k r ≤ roleMax r) (hklen : ∀ r, k r ≤ (sortedRole pool r).length)
    (hkmin : ∀ r, roleMin r ≤ k r)
    (cert : ∀ s j, roleMin s ≤ j → j < k s →
      ∀ r, k r < roleMax r → k r < (sortedRole pool r).length →
        nth pool r (k r) ≤ nth pool s j) :
    ∀ (D : Nat) (n : Role → Nat), ddist k n = D →
      (∀ r, roleMin r ≤ n r) → (∀ r, n r ≤ roleMax r) →
      (∀ r, n r ≤ (sortedRole pool r).length) →
      sumCnt n = sumCnt k →
      wsum pool n ≤ wsum pool k := by
  intro D
  induction D using Nat.strong_induction_on with
  | _ D ihD =>
    intro n hD hnmin hnmax hnlen hsum
    by_cases heq : ∀ r, n r = k r
    · refine le_of_eq ?_
      unfold wsum
      rw [heq Role.GK, heq Role.DEF, heq Role.MID, heq Role.FWD]
    · push_neg at heq
      obtain ⟨r1, hr1⟩ := heq
      have hexa : ∃ ra, k ra < n ra := by
        by_contra hno
        push_neg at hno
        have h1 := hno Role.GK
        have h2 := hno Role.DEF
        have h3 := hno Role.MID
        have h4 := hno Role.FWD
        unfold sumCnt at hsum
        cases r1 <;> omega
      obtain ⟨ra, hra⟩ := hexa
      have hexb : ∃ sb, n sb < k sb := by
        by_contra hno
        push_neg at hno
        have h1 := hno Role.GK
        have h2 := hno Role.DEF
        have h3 := hno Role.MID
        have h4 := hno Role.FWD
        unfold sumCnt at hsum
        cases ra <;> omega
      obtain ⟨sb, hsb⟩ := hexb
      have hra_ne : ra ≠ sb := by
        intro hh
        rw [hh] at hra
        omega
      have hra1 : 1 ≤ n ra := by omega
      set n1 : Role → Nat := fun s => if s = ra then n ra - 1 else n s with hn1def
      set n2 : Role → Nat := fun s => if s = sb then n sb + 1 else n1 s with hn2def
      have hn1ra : n1 ra = n ra - 1 := by simp [hn1def]
      have hn1sb : n1 sb = n sb := by
        simp only [hn1def]
        rw [if_neg (fun hh => hra_ne hh.symm)]
      have hn1other : ∀ t, t ≠ ra → n1 t = n t := by
        intro t ht
        simp only [hn1def]
        rw [if_neg ht]
      have hn2ra : n2 ra = n ra - 1 := by
        simp only [hn2def]
        rw [if_neg hra_ne, hn1ra]
      have hn2sb : n2 sb = n sb + 1 := by simp [hn2def]
      have hn2other : ∀ t, t ≠ ra → t ≠ sb → n2 t = n t := by
        intro t ht1 ht2
        simp only [hn2def]
        rw [if_neg ht2]
        exact hn1other t ht1
      -- the key exchange inequality
      have key1 : nth pool ra (n ra - 1) ≤ nth pool sb (n sb) := by
        have hfirst : nth pool ra (n ra - 1) ≤ nth pool ra (k ra) :=
          nth_antitone pool ra (by omega) (by have := hnlen ra; omega)
        have hsecond : nth pool ra (k ra) ≤ nth pool sb (n sb) :=
          cert sb (n sb) (hnmin sb) hsb ra
            (lt_of_lt_of_le hra (hnmax ra))
            (lt_of_lt_of_le hra (hnlen ra))
        linarith
      -- wsum increases along the exchange
      have hw1 : wsum pool n ≤ wsum pool n2 := by
        have hup1 : wsum pool n1
            = wsum pool n - bestSum pool ra (n ra) + bestSum pool ra (n ra - 1) :=
          wsum_update pool n ra (n ra - 1)
        have hup2 : wsum pool n2
            = wsum pool n1 - bestSum pool sb (n1 sb) + bestSum pool sb (n sb + 1) :=
          wsum_update pool n1 sb (n sb + 1)
        have hstep_ra : bestSum pool ra (n ra)
            = bestSum pool ra (n ra - 1) + nth pool ra (n ra - 1) := by
          have hh : n ra = (n ra - 1) + 1 := by omega
          calc bestSum pool ra (n ra) = bestSum pool ra ((n ra - 1) + 1) := by rw [← hh]
            _ = bestSum pool ra (n ra - 1) + nth pool ra (n ra - 1) :=
              bestSum_succ pool ra (n ra - 1) (by have := hnlen ra; omega)
        have hstep_sb : bestSum pool sb (n sb + 1)
            = bestSum pool sb (n sb) + nth pool sb (n sb) :=
          bestSum_succ pool sb (n sb) (by have := hklen sb; omega)
        rw [hup2, hn1sb, hup1, hstep_ra, hstep_sb]
        linarith
      -- the exchange strictly reduces the distance, keeps feasibility
      have hd1 := ddist_update k n ra (n ra - 1)
      have hd2 := ddist_update k n1 sb (n sb + 1)
      have hs1 := sumCnt_update n ra (n ra - 1)
      have hs2 := sumCnt_update n1 sb (n sb + 1)
      rw [← hn1def] at hd1 hs1
      rw [← hn2def] at hd2 hs2
      rw [hn1sb] at hd2 hs2
      have hdlt : ddist k n2 < D := by
        rw [← hD]
        have e1 : k ra - n ra = 0 := by omega
        have e2 : k ra - (n ra - 1) = 0 := by omega
        omega
      have hfmin : ∀ r, roleMin r ≤ n2 r := by
        intro t
        by_cases ht2 : t = sb
        · subst ht2; rw [hn2sb]; have := hnmin t; omega
        · by_cases ht1 : t = ra
          · subst ht1; rw [hn2ra]; have := hkmin t; omega
          · rw [hn2other t ht1 ht2]; exact hnmin t
      have hfmax : ∀ r, n2 r ≤ roleMax r := by
        intro t
        by_cases ht2 : t = sb
        · subst ht2; rw [hn2sb]; have := hkmax t; omega
        · by_cases ht1 : t = ra
          · subst ht1; rw [hn2ra]; have := hnmax t; omega
          · rw [hn2other t ht1 ht2]; exact hnmax t
      have hflen : ∀ r, n2 r ≤ (sortedRole pool r).length := by
        intro t
        by_cases ht2 : t = sb
        · subst ht2; rw [hn2sb]; have := hklen t; omega
        · by_cases ht1 : t = ra
          · subst ht1; rw [hn2ra]; have := hnlen t; omega
          · rw [hn2other t ht1 ht2]; exact hnlen t
      have hfsum : sumCnt n2 = sumCnt k := by omega
      exact le_trans hw1
        (ihD (ddist k n2) hdlt n2 rfl hfmin hfmax hflen hfsum)

/-! ### Normal CDF lemmas -/

theorem gaussian_support :
    Function.support (ProbabilityTheory.gaussianPDFReal 0 1) = Set.univ := by
  rw [Set.eq_univ_iff_forall]
  intro x
  rw [Function.mem_support]
  exact (ProbabilityTheory.gaussianPDFReal_pos 0 1 x one_ne_zero).ne'

open MeasureTheory ProbabilityTheory in
theorem setIntegral_gaussian_pos (s : Set ℝ) (hs : 0 < volume s) :
    0 < ∫ t in s, gaussianPDFReal 0 1 t := by
  rw [setIntegral_pos_iff_support_of_nonneg_ae
    (ae_of_all _ (fun t => gaussianPDFReal_nonneg 0 1 t))
    ((integrable_gaussianPDFReal 0 1).integrableOn)]
  rw [gaussian_support, Set.univ_inter]
  exact hs

open MeasureTheory ProbabilityTheory in
theorem normalCDF_strictMono {x y : ℝ} (hxy : x < y) : normalCDF x < normalCDF y := by
  have hint := integrable_gaussianPDFReal 0 1
  have hsub : normalCDF y - normalCDF x = ∫ t in Set.Ioc x y, gaussianPDFReal 0 1 t := by
    rw [show normalCDF y - normalCDF x
        = ((∫ t in Set.Iic y, gaussianPDFReal 0 1 t) - ∫ t in Set.Iic x, gaussianPDFReal 0 1 t)
      from rfl]
    rw [intervalIntegral.integral_Iic_sub_Iic hint.integrableOn hint.integrableOn,
      intervalIntegral.integral_of_le hxy.le]
  have hpos : 0 < ∫ t in Set.Ioc x y, gaussianPDFReal 0 1 t := by
    apply setIntegral_gaussian_pos
    rw [Real.volume_Ioc]
    exact ENNReal.ofReal_pos.2 (sub_pos.2 hxy)
  linarith [hsub, hpos]

theorem normalCDF_pos (x : ℝ) : 0 < normalCDF x := by
  apply setIntegral_gaussian_pos
  rw [Real.volume_Iic]
  exact ENNReal.zero_lt_top

open MeasureTheory ProbabilityTheory in
theorem normalCDF_lt_one (x : ℝ) : normalCDF x < 1 := by
  have hint := integrable_gaussianPDFReal 0 1
  have htot : normalCDF x + (∫ t in Set.Ioi x, gaussianPDFReal 0 1 t) = 1 := by
    rw [show normalCDF x = ∫ t in Set.Iic x, gaussianPDFReal 0 1 t from rfl]
    rw [intervalIntegral.integral_Iic_add_Ioi hint.integrableOn hint.integrableOn]
    exact integral_gaussianPDFReal_eq_one 0 one_ne_zero
  have hpos : 0 < ∫ t in Set.Ioi x, gaussianPDFReal 0 1 t := by
    apply setIntegral_gaussian_pos
    rw [Real.volume_Ioi]
    exact ENNReal.zero_lt_top
  linarith

/-! ## Claim theorems -/

/-- C2: `blend(tierRate, tierGames, overallRate, priorWeight)` equals the
    weighted average `(tierRate × tierGames + overallRate × priorWeight) /
    (tierGames + priorWeight)` whenever the weights are nonnegative with
    positive sum, and for `tierGames = 0`, `priorWeight > 0` it equals
    `overallRate` exactly. -/
theorem blend_spec (tierRate overallRate tierGames priorWeight : ℚ)
    (hg : 0 ≤ tierGames) (_hw : 0 ≤ priorWeight) (hpos : 0 < tierGames + priorWeight) :
    blend tierRate tierGames overallRate priorWeight =
      (tierRate * tierGames + overallRate * priorWeight) / (tierGames + priorWeight) ∧
    (tierGames = 0 → 0 < priorWeight →
      blend tierRate tierGames overallRate priorWeight = overallRate) := by
  refine ⟨rfl, ?_⟩
  rintro rfl hw'
  unfold blend
  rw [mul_zero, zero_add, zero_add, mul_div_assoc, div_self hw'.ne', mul_one]

/-- C2 witness: at `blend 5 0 7 3` the hypotheses hold and the blend
    degenerates to the overall rate 7. -/
theorem blend_spec_witness :
    (0:ℚ) ≤ 0 ∧ (0:ℚ) ≤ 3 ∧ (0:ℚ) < 0 + 3 ∧ blend 5 0 7 3 = 7 :=
  ⟨le_refl 0, by norm_num, by norm_num,
    (blend_spec 5 7 0 3 (le_refl 0) (by norm_num) (by norm_num)).2 rfl (by norm_num)⟩

/-- C5: on the configured season (ranks 1..20 with the 1-4/5-8/9-12/13-16/
    17-20 batches) exactly one tier covers each rank and `classify` returns
    its id; on any configuration, `classify` fails with a
    `ConfigurationError` when the tiers overlap, and also when no tier
    covers the requested rank. -/
theorem classify_spec :
    (∀ rank : Nat, 1 ≤ rank → rank ≤ 20 →
      (BATCH_CONFIG.batches.countP (fun t => t.covers rank)) = 1 ∧
      ∃ tid, classify BATCH_CONFIG.batches rank = Except.ok tid) ∧
    (∀ (tiers : List Tier) (rank : Nat), tiersOverlap tiers = true →
      classify tiers rank = Except.error ConfigurationError.overlap) ∧
    (∀ (tiers : List Tier) (rank : Nat), (∀ t ∈ tiers, t.covers rank = false) →
      ∃ e, classify tiers rank = Except.error e) := by
  refine ⟨?_, ?_, ?_⟩
  · intro rank h1 h2
    refine ⟨?_, (rank + 3) / 4, classify_batches_eq rank h1 h2⟩
    interval_cases rank <;> decide
  · intro tiers rank h
    simp [classify, h]
  · intro tiers rank h
    by_cases hov : tiersOverlap tiers
    · exact ⟨ConfigurationError.overlap, by simp [classify, hov]⟩
    · refine ⟨ConfigurationError.gap, ?_⟩
      have hfind : tiers.find? (fun t => t.covers rank) = none :=
        List.find?_eq_none.2 (fun t ht => by simp [h t ht])
      simp [classify, hov, hfind]

/-- C5 witness: rank 7 lies in the season, is covered by exactly one batch,
    and classifies to tier 2; a configuration with overlapping tiers fails
    with `overlap`; rank 25 is covered by no batch and fails. -/
theorem classify_spec_witness :
    (1 ≤ 7 ∧ 7 ≤ 20 ∧
      (BATCH_CONFIG.batches.countP (fun t => t.covers 7)) = 1 ∧
      ∃ tid, classify BATCH_CONFIG.batches 7 = Except.ok tid) ∧
    (tiersOverlap [⟨1, 1, 4⟩, ⟨2, 3, 8⟩] = true ∧
      classify [⟨1, 1, 4⟩, ⟨2, 3, 8⟩] 2 = Except.error ConfigurationError.overlap) ∧
    ((∀ t ∈ BATCH_CONFIG.batches, t.covers 25 = false) ∧
      ∃ e, classify BATCH_CONFIG.batches 25 = Except.error e) := by
  refine ⟨⟨by norm_num, by norm_num, ?_, ?_⟩, ⟨by decide, ?_⟩, ⟨by decide, ?_⟩⟩
  · exact (classify_spec.1 7 (by norm_num) (by norm_num)).1
  · exact (classify_spec.1 7 (by norm_num) (by norm_num)).2
  · exact classify_spec.2.1 [⟨1, 1, 4⟩, ⟨2, 3, 8⟩] 2 (by decide)
  · exact classify_spec.2.2 BATCH_CONFIG.batches 25 (by decide)

/-- C6: holding the two (positive) uncertainties fixed, `winProbability` is
    strictly increasing in the difference `total1 − total2`: a strictly
    larger difference yields a strictly larger win probability. -/
theorem winProbability_monotone (uncertainty1 uncertainty2 : ℝ)
    (h1 : 0 < uncertainty1) (h2 : 0 < uncertainty2)
    (t1 t2 s1 s2 : ℝ) (hd : t1 - t2 < s1 - s2) :
    winProbability t1 t2 uncertainty1 uncertainty2
      < winProbability s1 s2 uncertainty1 uncertainty2 := by
  unfold winProbability
  apply normalCDF_strictMono
  have hσ : 0 < Real.sqrt (uncertainty1 ^ 2 + uncertainty2 ^ 2) :=
    Real.sqrt_pos.2 (add_pos (pow_pos h1 2) (pow_pos h2 2))
  exact (div_lt_div_iff_of_pos_right hσ).2 hd

/-- C6 witness: with both uncertainties 1, a score difference of 5 beats a
    score difference of 2. -/
theorem winProbability_monotone_witness :
    (0:ℝ) < 1 ∧ (2:ℝ) - 0 < 5 - 0 ∧
    winProbability 2 0 1 1 < winProbability 5 0 1 1 :=
  ⟨by norm_num, by norm_num,
    winProbability_monotone 1 1 (by norm_num) (by norm_num) 2 0 5 0 (by norm_num)⟩

/-- C7: for all totals and positive uncertainties — including arbitrarily
    large score gaps — the returned probability is strictly between 0 and
    1, never exactly 0 or 1. -/
theorem winProbability_strict_bounds (t1 t2 u1 u2 : ℝ) (_h1 : 0 < u1) (_h2 : 0 < u2) :
    0 < winProbability t1 t2 u1 u2 ∧ winProbability t1 t2 u1 u2 < 1 :=
  ⟨normalCDF_pos _, normalCDF_lt_one _⟩

/-- C7 witness: even with a 1000-point gap and unit uncertainties the
    probability stays strictly inside (0, 1). -/
theorem winProbability_strict_bounds_witness :
    (0:ℝ) < 1 ∧ 0 < winProbability 1000 0 1 1 ∧ winProbability 1000 0 1 1 < 1 :=
  ⟨by norm_num,
    (winProbability_strict_bounds 1000 0 1 1 (by norm_num) (by norm_num)).1,
    (winProbability_strict_bounds 1000 0 1 1 (by norm_num) (by norm_num)).2⟩

/-- C8: under the configured constants (positive threshold, nonnegative
    slope, band within the threshold, base rate in [0,1]),
    `bonusProbability` lies in [0,1] and follows the piecewise policy: at or
    above the threshold it is `0.5 + (metric − threshold) × slope` capped at
    1; in the band below it is `baseRate × (metric / threshold)`; below the
    band it is 0. -/
theorem bonusProbability_spec (e t slope band baseRate : ℚ)
    (ht : 0 < t) (hs : 0 ≤ slope) (hb0 : 0 ≤ band) (hbt : band ≤ t)
    (hr0 : 0 ≤ baseRate) (hr1 : baseRate ≤ 1) :
    (0 ≤ bonusProbability e t slope band baseRate ∧
      bonusProbability e t slope band baseRate ≤ 1) ∧
    (t ≤ e → bonusProbability e t slope band baseRate
      = min 1 (1/2 + (e - t) * slope)) ∧
    (t - band ≤ e → e < t → bonusProbability e t slope band baseRate
      = baseRate * (e / t)) ∧
    (e < t - band → bonusProbability e t slope band baseRate = 0) := by
  unfold bonusProbability
  by_cases h1 : t ≤ e
  · have hx : (0:ℚ) ≤ 1/2 + (e - t) * slope := by
      have : (0:ℚ) ≤ (e - t) * slope := mul_nonneg (by linarith) hs
      linarith
    rw [if_pos h1]
    refine ⟨⟨le_min (by norm_num) hx, min_le_left _ _⟩, fun _ => rfl, ?_, ?_⟩
    · intro _ hlt
      exact absurd h1 (not_le.2 hlt)
    · intro hlt
      exact absurd h1 (not_le.2 (by linarith))
  · by_cases h2 : t - band ≤ e
    · have he0 : (0:ℚ) ≤ e := by linarith
      have hediv : (0:ℚ) ≤ e / t := div_nonneg he0 ht.le
      have hlt1 : e / t ≤ 1 := by
        rw [div_le_one ht]
        linarith [not_le.1 h1]
      rw [if_neg h1, if_pos h2]
      refine ⟨⟨mul_nonneg hr0 hediv, mul_le_one₀ hr1 hediv hlt1⟩, ?_, fun _ _ => rfl, ?_⟩
      · intro hle
        exact absurd hle h1
      · intro hlt
        exact absurd h2 (not_le.2 hlt)
    · rw [if_neg h1, if_neg h2]
      refine ⟨⟨le_refl 0, by norm_num⟩, ?_, ?_, fun _ => rfl⟩
      · intro hle
        exact absurd hle h1
      · intro hge _
        exact absurd hge h2

/-- C8 witness: with the DEF/GK configuration (threshold 10, slope 0.1, band
    3, base rate 0.4), an expected metric of 8 falls in the band and yields
    `0.4 × (8/10)`, inside [0,1]. -/
theorem bonusProbability_spec_witness :
    (0:ℚ) < 10 ∧ (0:ℚ) ≤ 1/10 ∧ (0:ℚ) ≤ 3 ∧ (3:ℚ) ≤ 10 ∧
      (0:ℚ) ≤ 2/5 ∧ (2/5:ℚ) ≤ 1 ∧
    (0 ≤ bonusProbability 8 10 (1/10) 3 (2/5) ∧
      bonusProbability 8 10 (1/10) 3 (2/5) ≤ 1) ∧
    bonusProbability 8 10 (1/10) 3 (2/5) = (2/5) * (8 / 10) := by
  have h := bonusProbability_spec 8 10 (1/10) 3 (2/5) (by norm_num) (by norm_num)
    (by norm_num) (by norm_num) (by norm_num) (by norm_num)
  exact ⟨by norm_num, by norm_num, by norm_num, by norm_num, by norm_num, by norm_num,
    h.1, h.2.2.1 (by norm_num) (by norm_num)⟩

/-- C9 counterexample: a role lookup on an invalid role is not an explicit
    error — `getPositionId` maps the unknown name "WINGER" to the same value
    as the valid role "MID", and `getPositionName` maps the out-of-range id
    99 to the default string "UNK". -/
theorem positionLookup_counterexample :
    FPLDB.getPositionId "WINGER" = FPLDB.getPositionId "MID" ∧
    FPLDB.getPositionId "WINGER" = 3 ∧
    FPLDB.getPositionName 99 = "UNK" := by
  exact ⟨rfl, rfl, rfl⟩

/-- C9 amended: a role lookup on an invalid role silently substitutes a
    default value (`"UNK"` for an unknown position id, `3` = MID for an
    unknown role name) instead of failing with a validation error. -/
theorem positionLookup_silent_fallback (pid : Nat) (name : String) :
    (pid ∉ ([1, 2, 3, 4] : List Nat) → FPLDB.getPositionName pid = "UNK") ∧
    (jsToUpperCase name ∉ (["GK", "DEF", "MID", "FWD"] : List String) →
      FPLDB.getPositionId name = 3) := by
  constructor
  · intro h
    simp only [List.mem_cons, List.not_mem_nil, or_false, not_or] at h
    simp [FPLDB.getPositionName, h.1, h.2.1, h.2.2.1, h.2.2.2]
  · intro h
    simp only [List.mem_cons, List.not_mem_nil, or_false, not_or] at h
    simp [FPLDB.getPositionId, h.1, h.2.1, h.2.2.1, h.2.2.2]

/-- C9 amended witness: id 99 and name "WINGER" are invalid and fall back to
    "UNK" and 3. -/
theorem positionLookup_silent_fallback_witness :
    (99 ∉ ([1, 2, 3, 4] : List Nat) ∧ FPLDB.getPositionName 99 = "UNK") ∧
    (jsToUpperCase "WINGER" ∉ (["GK", "DEF", "MID", "FWD"] : List String) ∧
      FPLDB.getPositionId "WINGER" = 3) :=
  ⟨⟨by decide, (positionLookup_silent_fallback 99 "WINGER").1 (by decide)⟩,
    ⟨by decide, (positionLookup_silent_fallback 99 "WINGER").2 (by decide)⟩⟩

/-- C10: when the two selected entries are identical, `H2H.compare` renders
    a warning and performs no prediction request; a prediction request is
    only ever issued for two distinct entries. -/
theorem h2h_compare_spec (entry1 entry2 : String) :
    (entry1 = entry2 →
      H2H.compare entry1 entry2 = H2HAction.warnSelectBoth ∨
      H2H.compare entry1 entry2 = H2HAction.warnSameSquad) ∧
    (∀ e1 e2, H2H.compare entry1 entry2 = H2HAction.requestPrediction e1 e2 →
      entry1 ≠ entry2) := by
  unfold H2H.compare
  constructor
  · rintro rfl
    by_cases h : entry1 = ""
    · left
      rw [if_pos (Or.inl h)]
    · right
      rw [if_neg (by simp [h]), if_pos rfl]
  · intro e1 e2 h
    by_cases h0 : entry1 = "" ∨ entry2 = ""
    · rw [if_pos h0] at h
      exact absurd h (by simp)
    · by_cases heq : entry1 = entry2
      · rw [if_neg h0, if_pos heq] at h
        exact absurd h (by simp)
      · exact heq

/-- C10 witness: comparing entry "822133" with itself yields a warning, not
    a request. -/
theorem h2h_compare_spec_witness :
    H2H.compare "822133" "822133" = H2HAction.warnSelectBoth ∨
    H2H.compare "822133" "822133" = H2HAction.warnSameSquad :=
  (h2h_compare_spec "822133" "822133").1 rfl

/-- C1: for every candidate pool, `selectOptimalEleven` either returns
    exactly 11 players with exactly one goalkeeper and the defender /
    midfielder / forward counts inside the configured bounds (3-5, 2-5,
    1-3), or fails with `InsufficientSquadError`; in particular it fails
    whenever some role's pool is smaller than that role's minimum, and it
    never returns a partial or bound-violating selection. -/
theorem selectOptimalEleven_spec (pool : List Candidate) :
    ((∃ sel, selectOptimalEleven pool = Except.ok sel ∧ sel.length = 11 ∧
      rcount sel Role.GK = 1 ∧
      (3 ≤ rcount sel Role.DEF ∧ rcount sel Role.DEF ≤ 5) ∧
      (2 ≤ rcount sel Role.MID ∧ rcount sel Role.MID ≤ 5) ∧
      (1 ≤ rcount sel Role.FWD ∧ rcount sel Role.FWD ≤ 3)) ∨
      selectOptimalEleven pool = Except.error SquadError.insufficientSquad) ∧
    (∀ r : Role, (pool.filter (fun c => c.role == r)).length < roleMin r →
      selectOptimalEleven pool = Except.error SquadError.insufficientSquad) := by
  constructor
  · unfold selectOptimalEleven selectCounts
    by_cases hg : ∀ r ∈ roleList, roleMin r ≤ (sortedRole pool r).length
    · rw [if_pos hg]
      cases hp : phase2 pool 4 roleMin with
      | error e =>
        cases e
        right
        rfl
      | ok k =>
        obtain ⟨h1, h2, h3, h4⟩ :=
          phase2_ok pool 4 roleMin k hp roleMin_le_roleMax (fun r => hg r (mem_roleList r))
        left
        refine ⟨_, rfl, ?_, ?_, ?_, ?_, ?_⟩
        · rw [length_selection pool k h3, h4]
          rfl
        · rw [rcount_selection pool k h3]
          have ha := h1 Role.GK
          have hb := h2 Role.GK
          simp only [roleMin] at ha
          simp only [roleMax] at hb
          omega
        · rw [rcount_selection pool k h3]
          have ha := h1 Role.DEF
          have hb := h2 Role.DEF
          simp only [roleMin] at ha
          simp only [roleMax] at hb
          omega
        · rw [rcount_selection pool k h3]
          have ha := h1 Role.MID
          have hb := h2 Role.MID
          simp only [roleMin] at ha
          simp only [roleMax] at hb
          omega
        · rw [rcount_selection pool k h3]
          have ha := h1 Role.FWD
          have hb := h2 Role.FWD
          simp only [roleMin] at ha
          simp only [roleMax] at hb
          omega
    · rw [if_neg hg]
      right
      rfl
  · intro r hr
    unfold selectOptimalEleven selectCounts
    have hg : ¬ ∀ s ∈ roleList, roleMin s ≤ (sortedRole pool s).length := by
      intro hall
      have := hall r (mem_roleList r)
      rw [sortedRole_length] at this
      omega
    rw [if_neg hg]
    rfl

/-- C1 witness: the empty pool has fewer goalkeepers than the GK minimum
    and the selector reports `insufficientSquad`. -/
theorem selectOptimalEleven_spec_witness :
    (([] : List Candidate).filter (fun c => c.role == Role.GK)).length < roleMin Role.GK ∧
    selectOptimalEleven [] = Except.error SquadError.insufficientSquad :=
  ⟨by decide, (selectOptimalEleven_spec []).2 Role.GK (by decide)⟩

/-- C4: whenever `selectOptimalEleven` returns a lineup, that lineup's
    summed expected points is maximal over all 11-player sub-selections of
    the pool that satisfy the formation bounds (1 GK, 3-5 DEF, 2-5 MID,
    1-3 FWD): the minimum-first greedy is optimal. -/
theorem selectOptimalEleven_optimal (pool sel T : List Candidate)
    (hok : selectOptimalEleven pool = Except.ok sel)
    (hsub : T.Sublist pool) (hlen : T.length = 11)
    (hgk : rcount T Role.GK = 1)
    (hdef1 : 3 ≤ rcount T Role.DEF) (hdef2 : rcount T Role.DEF ≤ 5)
    (hmid1 : 2 ≤ rcount T Role.MID) (hmid2 : rcount T Role.MID ≤ 5)
    (hfwd1 : 1 ≤ rcount T Role.FWD) (hfwd2 : rcount T Role.FWD ≤ 3) :
    xsum T ≤ xsum sel := by
  unfold selectOptimalEleven at hok
  cases hsc : selectCounts pool with
  | error e =>
    rw [hsc] at hok
    exact absurd hok (by simp [Except.map])
  | ok k =>
    rw [hsc] at hok
    simp only [Except.map] at hok
    injection hok with hok
    subst hok
    unfold selectCounts at hsc
    by_cases hg : ∀ r ∈ roleList, roleMin r ≤ (sortedRole pool r).length
    · rw [if_pos hg] at hsc
      obtain ⟨hkmin, hkmax, hklen, hksum⟩ :=
        phase2_ok pool 4 roleMin k hsc roleMin_le_roleMax (fun r => hg r (mem_roleList r))
      have cert :=
        phase2_cert pool 4 roleMin k hsc roleMin_le_roleMax (fun r => hg r (mem_roleList r))
      have hnmin : ∀ r, roleMin r ≤ rcount T r := by
        intro r
        cases r <;> simp only [roleMin] <;> omega
      have hnmax : ∀ r, rcount T r ≤ roleMax r := by
        intro r
        cases r <;> simp only [roleMax] <;> omega
      have hnlen : ∀ r, rcount T r ≤ (sortedRole pool r).length := by
        intro r
        rw [sortedRole_length]
        unfold rcount
        rw [List.countP_eq_length_filter]
        exact (hsub.filter _).length_le
      have hnsum : sumCnt (fun r => rcount T r) = sumCnt k := by
        have hp := rcount_partition T
        have h7 : sumCnt roleMin = 7 := rfl
        show rcount T Role.GK + rcount T Role.DEF + rcount T Role.MID + rcount T Role.FWD
          = sumCnt k
        omega
      have hcompare := wsum_le_of_cert pool k hkmax hklen hkmin cert
        (ddist k (fun r => rcount T r)) (fun r => rcount T r) rfl hnmin hnmax hnlen hnsum
      have hT1 : xsum T ≤ wsum pool (fun r => rcount T r) := by
        have g1 := xsum_filter_le pool T hsub Role.GK
        have g2 := xsum_filter_le pool T hsub Role.DEF
        have g3 := xsum_filter_le pool T hsub Role.MID
        have g4 := xsum_filter_le pool T hsub Role.FWD
        rw [xsum_partition T]
        show _ ≤ bestSum pool Role.GK (rcount T Role.GK) +
          bestSum pool Role.DEF (rcount T Role.DEF) +
          bestSum pool Role.MID (rcount T Role.MID) +
          bestSum pool Role.FWD (rcount T Role.FWD)
        linarith
      rw [xsum_selection pool k]
      exact le_trans hT1 hcompare
    · rw [if_neg hg] at hsc
      exact absurd hsc (by simp)

/-- C3: a record is counted into the bucket of its opponent's
    contemporaneous tier (classified from the standings at the record's
    round), and aggregation reads no other standings entries: any two
    standings tables agreeing at the records' own rounds — e.g. before and
    after a current-rank change — produce identical buckets. -/
theorem aggregate_spec (tiers : List Tier) (records : List MatchRecord)
    (s1 s2 : Nat → Nat → Nat)
    (h : ∀ m ∈ records, s1 m.round m.opponent = s2 m.round m.opponent) (tid : Nat) :
    aggregate s1 tiers tid records = aggregate s2 tiers tid records ∧
    (aggregate s1 tiers tid records).games
      = (records.filter (inTier s1 tiers tid)).length :=
  ⟨aggregate_congr tiers tid s1 s2 records h,
    aggregate_games_eq s1 tiers tid records⟩

/-- C3 witness: a single round-1 record aggregates identically under two
    standings tables that agree on round 1 but disagree later, and its
    bucket count is 1 in its contemporaneous tier. -/
theorem aggregate_spec_witness :
    (∀ m ∈ [MatchRecord.mk 2 1 90 1],
      (fun _ t => t) m.round m.opponent
        = (fun r t => if r ≤ 1 then t else t + 7) m.round m.opponent) ∧
    aggregate (fun _ t => t) BATCH_CONFIG.batches 1 [MatchRecord.mk 2 1 90 1]
      = aggregate (fun r t => if r ≤ 1 then t else t + 7) BATCH_CONFIG.batches 1
          [MatchRecord.mk 2 1 90 1] ∧
    (aggregate (fun _ t => t) BATCH_CONFIG.batches 1 [MatchRecord.mk 2 1 90 1]).games
      = ([MatchRecord.mk 2 1 90 1].filter
          (inTier (fun _ t => t) BATCH_CONFIG.batches 1)).length := by
  have h := aggregate_spec BATCH_CONFIG.batches [MatchRecord.mk 2 1 90 1]
    (fun _ t => t) (fun r t => if r ≤ 1 then t else t + 7) (by decide) 1
  exact ⟨by decide, h.1, h.2⟩

/-- C4 witness: on the scenario roster (2 GK, 5 DEF, 5 MID, 3 FWD) the
    selector returns the lineup GK 5; DEF 6,5,4,3,2; MID 9,8,7; FWD 6,4,
    and the formation-valid 11-subset `scenarioT` scores no more. -/
theorem selectOptimalEleven_optimal_witness :
    selectOptimalEleven scenarioPool = Except.ok scenarioT ∧
    scenarioT.Sublist scenarioPool ∧ scenarioT.length = 11 ∧
    rcount scenarioT Role.GK = 1 ∧
    (3 ≤ rcount scenarioT Role.DEF ∧ rcount scenarioT Role.DEF ≤ 5) ∧
    (2 ≤ rcount scenarioT Role.MID ∧ rcount scenarioT Role.MID ≤ 5) ∧
    (1 ≤ rcount scenarioT Role.FWD ∧ rcount scenarioT Role.FWD ≤ 3) ∧
    xsum scenarioT ≤ xsum scenarioT :=
  ⟨by decide, by decide, by decide, by decide, ⟨by decide, by decide⟩,
    ⟨by decide, by decide⟩, ⟨by decide, by decide⟩,
    selectOptimalEleven_optimal scenarioPool scenarioT scenarioT (by decide) (by decide)
      (by decide) (by decide) (by decide) (by decide) (by decide) (by decide)
      (by decide) (by decide)⟩

end FplAnalyzer
